import Mathlib

/-!
Verification of the PHILAB instrumentation/sweep/geometry engine.

Shallow embedding of the Python sources of `phi2_lab` into Lean:
floats become rationals (`ℚ`), NumPy arrays become lists, exceptions
become `Option`/`Except`, and stateful hook registration becomes explicit
state passing.  Each definition mirrors one Python function of the
repository; theorems at the end settle the specification claims.
-/

namespace PhiLab

/-! ## metrics.py -/

/-- Embeds `compute_loss_delta` from `phi2_experiments/metrics.py`:
relative change between baseline and perturbed losses, with a
divide-by-zero guard returning `0.0` when the baseline is `0`. -/
def compute_loss_delta (baseline perturbed : ℚ) : ℚ :=
  if baseline = 0 then 0 else (perturbed - baseline) / baseline

/-- Embeds `compute_accuracy_delta` from `phi2_experiments/metrics.py`. -/
def compute_accuracy_delta (baseline_accuracy perturbed_accuracy : ℚ) : ℚ :=
  perturbed_accuracy - baseline_accuracy

/-- The effective mask of `compute_accuracy_from_predictions`:
`np.ones_like(labels, dtype=bool)` when no mask is supplied, else the
given mask. -/
def validMask (n : ℕ) : Option (List Bool) → List Bool
  | none => List.replicate n true
  | some m => m

/-- Embeds `compute_accuracy_from_predictions` from
`phi2_experiments/metrics.py`.  Predictions and labels arrive already
flattened (the Python code reshapes to `-1`); element values are modelled
as integers (token ids), the optional mask as booleans.  A raised
`ValueError` becomes `Except.error`. -/
def compute_accuracy_from_predictions (predictions labels : List Int)
    (mask : Option (List Bool)) : Except String ℚ :=
  if predictions.length ≠ labels.length then
    .error "Predictions and labels must share the same shape for accuracy computation"
  else
    let valid_mask := validMask labels.length mask
    if valid_mask.length ≠ labels.length then
      .error "Mask must share the same shape as labels for accuracy computation"
    else if valid_mask.all (fun b => !b) then
      .ok 0
    else
      let matchCount := ((predictions.zip labels).zip valid_mask).countP
        (fun x => x.1.1 = x.1.2 ∧ x.2 = true)
      let valid := valid_mask.countP (fun b => b = true)
      .ok ((matchCount : ℚ) / (valid : ℚ))

/-- One entry of the ranking produced by `rank_heads_by_importance`:
the Python dict `\x7b"head": ..., "score": ...\x7d`. -/
structure RankedHead where
  head : String
  score : ℚ
deriving DecidableEq

/-- The sort key used by `rank_heads_by_importance`:
`(-item["score"], item["head"])` compared lexicographically, i.e. higher
score first, ties broken by head key ascending. -/
def rankLE (a b : RankedHead) : Prop :=
  b.score < a.score ∨ (a.score = b.score ∧ a.head ≤ b.head)

instance : DecidableRel rankLE := fun a b => by

  unfold rankLE; infer_instance

instance : IsTotal RankedHead rankLE where
  total a b := by

    rcases lt_trichotomy a.score b.score with h | h | h
    · exact Or.inr (Or.inl h)
    · rcases le_total a.head b.head with hh | hh
      · exact Or.inl (Or.inr ⟨h, hh⟩)
      · exact Or.inr (Or.inr ⟨h.symm, hh⟩)
    · exact Or.inl (Or.inl h)

instance : IsTrans RankedHead rankLE where
  trans a b c hab hbc := by

    rcases hab with h1 | ⟨h1, h1'⟩ <;> rcases hbc with h2 | ⟨h2, h2'⟩
    · exact Or.inl (h2.trans h1)
    · exact Or.inl (h2 ▸ h1)
    · exact Or.inl (h1 ▸ h2)
    · exact Or.inr ⟨h1.trans h2, h1'.trans h2'⟩

instance : IsAntisymm RankedHead rankLE where
  antisymm a b hab hba := by

    have hs : a.score = b.score := by
      rcases hab with h1 | ⟨h1, _⟩
      · rcases hba with h2 | ⟨h2, _⟩
        · exact absurd h2 (lt_asymm h1)
        · exact h2.symm
      · exact h1
    have hh : a.head = b.head := by
      rcases hab with h1 | ⟨_, h1'⟩
      · exact absurd h1 (by simp [hs])
      · rcases hba with h2 | ⟨_, h2'⟩
        · exact absurd h2 (by simp [hs])
        · exact le_antisymm h1' h2'
    cases a; cases b
    simp_all

/-- Association-list lookup modelling Python `dict.get(key, default)`. -/
def dictGet (assoc : List (String × ℚ)) (key : String) (default : ℚ) : ℚ :=
  match assoc.find? (fun kv => kv.1 = key) with
  | some kv => kv.2
  | none => default

/-- Embeds `rank_heads_by_importance` from `phi2_experiments/metrics.py`.
The aggregated-importance mapping is an association list from head key to
a metrics dict; the score is `metrics.get(metric_key, 0.0)`; the ranked
list is sorted by `(-score, head)` and truncated to `top_k` when given. -/
def rank_heads_by_importance (aggregated_importance : List (String × List (String × ℚ)))
    (metric_key : String := "mean") (top_k : Option ℕ := none) : List RankedHead :=
  let ranked := aggregated_importance.map
    (fun hm => RankedHead.mk hm.1 (dictGet hm.2 metric_key 0))
  let sorted := ranked.insertionSort rankLE
  match top_k with
  | none => sorted
  | some k => sorted.take k

/-! ## runner.py: probe split and intervention hook -/

/-- Embeds `ExperimentRunner._probe_split_indices` from
`phi2_experiments/runner.py`.  `int(num_samples * 0.8)` is the exact
floor `4 * n / 5` (verified to agree with Python float semantics on the
practical input range). -/
def probe_split_indices (num_samples : ℕ) : ℕ × ℕ :=
  if num_samples ≤ 1 then (num_samples, num_samples)
  else
    let train_end := max 1 (4 * num_samples / 5)
    let train_end := if train_end ≥ num_samples then num_samples - 1 else train_end
    (train_end, train_end)

/-- Adjustment of the delta vector to the tensor's trailing dimension in
`ExperimentRunner._make_intervention_fn`: zero-pad on the right when
shorter, truncate when longer, unchanged when equal. -/
def adjustDelta (delta : List ℚ) (m : ℕ) : List ℚ :=
  if delta.length < m then delta ++ List.replicate (m - delta.length) 0
  else if m < delta.length then delta.take m
  else delta

/-- Embeds the hook closure built by `ExperimentRunner._make_intervention_fn`
(`phi2_experiments/runner.py`): returns `tensor + scale * delta_tensor`
after adjusting the delta to the trailing dimension.  The tensor is
modelled by its trailing-dimension vector. -/
def intervention_hook (delta : List ℚ) (scale : ℚ) (tensor : List ℚ) : List ℚ :=
  List.zipWith (fun t d => t + scale * d) tensor (adjustDelta delta tensor.length)

/-! ## ablation.py -/

/-- Embeds `zero_attention_head` from `phi2_core/ablation.py`.  The layer's
reported head count (`num_heads` / `num_attention_heads` / config fallback
chain) is modelled as an optional natural; the tensor is modelled by its
number of dimensions together with its trailing-dimension vector.  The
in-place `view` write is rendered functionally; a `view` shape failure
(trailing size not `num_heads * head_dim`) becomes `none`. -/
def zero_attention_head (numHeads : Option ℕ) (headIdx : ℕ) (ndim : ℕ)
    (tensor : List ℚ) : Option (List ℚ) :=
  match numHeads with
  | none => some tensor
  | some nh =>
    if nh ≤ headIdx then some tensor
    else if ndim < 3 then some tensor
    else if tensor.length = nh * (tensor.length / nh) then
      some (tensor.enum.map
        (fun p => if p.1 / (tensor.length / nh) = headIdx then 0 else p.2))
    else
      none

/-- Embeds the `ATTENTION_HEAD` branch of `HookManager._apply_ablation`
(`phi2_core/hooks.py`): the hook folds `zero_attention_head` over the
requested indices in order. -/
def apply_head_ablation (numHeads : Option ℕ) (indices : List ℕ) (ndim : ℕ)
    (tensor : List ℚ) : Option (List ℚ) :=
  indices.foldl
    (fun acc idx => acc.bind (fun t => zero_attention_head numHeads idx ndim t))
    (some tensor)

/-- Embeds `zero_mlp_neurons` from `phi2_core/ablation.py`: zero the listed
trailing-dimension indices that are in range. -/
def zero_mlp_neurons (neuron_indices : List ℕ) (ndim : ℕ) (tensor : List ℚ) : List ℚ :=
  if ndim = 0 then tensor
  else tensor.enum.map (fun p => if p.1 ∈ neuron_indices then 0 else p.2)

/-- Stated from the spec sentence for the ablation interceptor: decompose
the trailing dimension into `nh` equal slices and zero exactly the slices
at the requested indices, leaving the other slices unchanged. -/
def spec_zero_slices (nh : ℕ) (indices : List ℕ) (tensor : List ℚ) : List ℚ :=
  tensor.enum.map (fun p => if p.1 / (tensor.length / nh) ∈ indices then 0 else p.2)

/-! ## geometry.py: rational matrices and PCA -/

/-- Dot product of two rational vectors. -/
def dot (xs ys : List ℚ) : ℚ :=
  (List.zipWith (· * ·) xs ys).sum

/-- Matrix transpose for list-of-rows matrices (rows assumed rectangular). -/
def transposeMat (m : List (List ℚ)) : List (List ℚ) :=
  match m with
  | [] => []
  | r :: _ => (List.range r.length).map (fun j => m.map (fun row => row.getD j 0))

/-- Matrix product for list-of-rows matrices. -/
def matMul (a b : List (List ℚ)) : List (List ℚ) :=
  let bt := transposeMat b
  a.map (fun row => bt.map (fun col => dot row col))

/-- Square diagonal matrix with the given diagonal. -/
def diagMat (s : List ℚ) : List (List ℚ) :=
  (List.range s.length).map (fun i =>
    (List.range s.length).map (fun j => if i = j then s.getD i 0 else 0))

/-- Identity matrix of size `n`. -/
def idMat (n : ℕ) : List (List ℚ) :=
  (List.range n).map (fun i => (List.range n).map (fun j => if i = j then (1 : ℚ) else 0))

/-- Column means of a list-of-rows matrix (`matrix.mean(axis=0)`). -/
def colMeans (m : List (List ℚ)) : List ℚ :=
  match m with
  | [] => []
  | r :: _ => (List.range r.length).map
      (fun j => (m.map (fun row => row.getD j 0)).sum / (m.length : ℚ))

/-- Column centering (`matrix - matrix.mean(axis=0, keepdims=True)`). -/
def centerColumns (m : List (List ℚ)) : List (List ℚ) :=
  let mu := colMeans m
  m.map (fun row => List.zipWith (· - ·) row mu)

/-- Decidable check that `(u, s, vh)` is a reduced singular-value
decomposition of `m` over the rationals: `m = u · diag s · vh` with
orthonormal columns of `u` and orthonormal rows of `vh`. -/
def isSVD (m u : List (List ℚ)) (s : List ℚ) (vh : List (List ℚ)) : Prop :=
  matMul u (matMul (diagMat s) vh) = m ∧
  matMul (transposeMat u) u = idMat s.length ∧
  matMul vh (transposeMat vh) = idMat s.length

instance (m u : List (List ℚ)) (s : List ℚ) (vh : List (List ℚ)) :
    Decidable (isSVD m u s vh) := by
  unfold isSVD; infer_instance

/-- Row-echelon rank of a rational matrix by Gaussian elimination,
recursing on the column count `d`. -/
def matRankAux : ℕ → List (List ℚ) → ℕ
  | 0, _ => 0
  | d + 1, rows =>
    match rows.find? (fun r => r.headD 0 ≠ 0) with
    | none => matRankAux d (rows.map (·.tail))
    | some p =>
      let reduced := (rows.erase p).map (fun r =>
        List.zipWith (fun a b => a - (r.headD 0 / p.headD 0) * b) r.tail p.tail)
      1 + matRankAux d reduced

/-- Rank of a rational list-of-rows matrix. -/
def matRank (m : List (List ℚ)) : ℕ :=
  matRankAux ((m.headD []).length) m

/-- Result record of `compute_pca` (`phi2_experiments/geometry.py`). -/
structure PCAResult where
  components : List (List ℚ)
  explained_variance : List ℚ
  explained_variance_ratio : List ℚ
  mean : List ℚ
deriving DecidableEq

/-- Embeds the post-SVD part of `compute_pca` from
`phi2_experiments/geometry.py`.  The call `np.linalg.svd(centered,
full_matrices=False)` is not computable in the embedding, so the singular
values `s` and right singular vectors `vh` of the centered matrix are
passed in; theorems constrain them by the reduced-SVD shape contract
(`len(s) = len(vh) = min(n, d)`) and, where needed, by `isSVD`.
`total_variance = explained_variance.sum() or 1.0` uses Python truthiness:
a zero sum is replaced by `1.0`. -/
def compute_pca_core (n : ℕ) (s : List ℚ) (vh : List (List ℚ))
    (components : ℕ) (centered : List (List ℚ)) : PCAResult :=
  let explained_variance := s.map (fun x => x ^ 2 / ((max (n - 1) 1 : ℕ) : ℚ))
  let total_variance := if explained_variance.sum = 0 then 1 else explained_variance.sum
  let explained_variance_ratio := explained_variance.map (fun v => v / total_variance)
  let top_components := min components vh.length
  { components := vh.take top_components
    explained_variance := explained_variance.take top_components
    explained_variance_ratio := explained_variance_ratio.take top_components
    mean := colMeans centered }

/-- Embeds `compute_pca` from `phi2_experiments/geometry.py` with
`center = True`: validates the shape (2D with at least two rows; raised
`ValueError` becomes `Except.error`), centers the columns and delegates
to `compute_pca_core` with the SVD of the centered matrix. -/
def compute_pca (matrix : List (List ℚ)) (s : List ℚ) (vh : List (List ℚ))
    (components : ℕ := 3) : Except String PCAResult :=
  if ¬ (matrix.all (fun r => r.length = (matrix.headD []).length)) then
    .error "PCA expects a 2D matrix of shape [samples, features]"
  else if matrix.length < 2 then
    .error "At least two samples are required to compute PCA"
  else
    .ok (compute_pca_core matrix.length s vh components (centerColumns matrix))

/-! ## geometry_viz/residuals.py -/

/-- The pydantic model `ResidualMode` of `geometry_viz/schema.py`, with
exactly the fields the schema declares that `compute_residual_modes`
populates; the remaining declared fields (`span_across_layers`,
`growth_curve`, `semantic_region`, `spectral_bundle`) keep their empty
defaults there and are omitted.  Note the schema declares NO
`projection_coords_3d` field. -/
structure ResidualMode where
  mode_index : ℕ
  eigenvalue : ℚ
  variance_explained : ℚ
  token_examples : List String
  projection_coords : List (ℚ × ℚ)
  description : Option String
deriving DecidableEq

/-- Models the `ResidualMode(...)` constructor call as written at
`geometry_viz/residuals.py` line 95: the call passes a
`projection_coords_3d` keyword, but the pydantic model declares no such
field and pydantic's default `extra = ignore` silently drops unknown
keywords, so the argument is discarded and never stored. -/
def residualMode_init (mode_index : ℕ) (eigenvalue variance_explained : ℚ)
    (token_examples : List String) (projection_coords : List (ℚ × ℚ))
    (_projection_coords_3d : List (ℚ × ℚ × ℚ))
    (description : Option String) : ResidualMode :=
  { mode_index, eigenvalue, variance_explained, token_examples, projection_coords,
    description }

/-- Models the Python attribute lookup `mode.projection_coords_3d` on a
`ResidualMode` instance: since `geometry_viz/schema.py` declares no such
field and the constructor keyword was dropped, the lookup raises
`AttributeError`, modelled as `none`. -/
def residualMode_projection_coords_3d (_m : ResidualMode) :
    Option (List (ℚ × ℚ × ℚ)) :=
  none

/-- Insertion of an index into a list kept sorted by descending key. -/
def insertDescBy (key : ℕ → ℚ) (i : ℕ) : List ℕ → List ℕ
  | [] => [i]
  | j :: rest => if key j ≤ key i then i :: j :: rest else j :: insertDescBy key i rest

/-- Indices `0..n-1` sorted by descending key, modelling
`np.argsort(magnitudes)[::-1]` (tie order is unspecified by NumPy's
default quicksort and irrelevant to the claims). -/
def argsortDesc (key : ℕ → ℚ) (n : ℕ) : List ℕ :=
  (List.range n).foldr (insertDescBy key) []

/-- Embeds `_select_token_examples` from `geometry_viz/residuals.py`:
labels of the `top_n` samples with the largest projection magnitude. -/
def select_token_examples (projections : List ℚ) (token_strings : Option (List String))
    (top_n : ℕ) : List String :=
  let token_labels := match token_strings with
    | none => (List.range projections.length).map (fun i => "token_" ++ toString i)
    | some ts => ts
  let sorted_indices := (argsortDesc (fun i => |projections.getD i 0|) projections.length).take top_n
  sorted_indices.map (fun i => token_labels.getD i "")

/-- The adjusted component count `k = max(1, min(k, min(*residuals.shape)))`
of `compute_residual_modes`. -/
def residual_kk (residuals : List (List ℚ)) (k : ℕ) : ℕ :=
  max 1 (min k (min residuals.length (residuals.headD []).length))

/-- The score matrix `centered @ components.T` of `compute_residual_modes`,
with `components = vh[:k]` from the SVD of the centered residuals. -/
def residual_scores (residuals : List (List ℚ)) (vh : List (List ℚ)) (k : ℕ) :
    List (List ℚ) :=
  (centerColumns residuals).map
    (fun row => (vh.take (residual_kk residuals k)).map (fun c => dot row c))

/-- The per-mode explained variances `s[:k]² / (n - 1)` of
`compute_residual_modes`. -/
def residual_explained_variance (residuals : List (List ℚ)) (s : List ℚ) (k : ℕ) :
    List ℚ :=
  (s.take (residual_kk residuals k)).map
    (fun x => x ^ 2 / ((residuals.length : ℚ) - 1))

/-- `float(np.var(centered, axis=0, ddof=1).sum())` of
`compute_residual_modes`: the centered columns have exact mean zero over
the rationals, so the column variance is the column's sum of squares over
`n - 1`. -/
def residual_total_variance (residuals : List (List ℚ)) : ℚ :=
  ((List.range (residuals.headD []).length).map (fun j =>
    (((centerColumns residuals).map (fun row => row.getD j 0)).map (fun x => x ^ 2)).sum /
      ((residuals.length : ℚ) - 1))).sum

/-- One `ResidualMode` as built inside the loop of
`compute_residual_modes`: the constructor is called with all keyword
arguments the Python source writes, including the `projection_coords_3d`
list (first three score columns, zero-padded), which
`residualMode_init` drops exactly as pydantic does. -/
def residual_mode_build (residuals : List (List ℚ)) (s : List ℚ)
    (vh : List (List ℚ)) (k : ℕ) (token_strings : Option (List String))
    (top_n_examples : ℕ) (idx : ℕ) : ResidualMode :=
  residualMode_init idx
    ((residual_explained_variance residuals s k).getD idx 0)
    (if 0 < residual_total_variance residuals then
        (residual_explained_variance residuals s k).getD idx 0 /
          residual_total_variance residuals
      else 0)
    (select_token_examples ((residual_scores residuals vh k).map (fun r => r.getD idx 0))
      token_strings top_n_examples)
    ((residual_scores residuals vh k).map (fun r => (r.getD 0 0, r.getD 1 0)))
    ((residual_scores residuals vh k).map (fun r => (r.getD 0 0, r.getD 1 0, r.getD 2 0)))
    none

/-- Embeds `compute_residual_modes` from `geometry_viz/residuals.py`.
The SVD inside `_pca_via_svd` is again passed in as `(s, vh)` for the
centered residual matrix.  A raised `ValueError` becomes `none`; this
includes the tuple-unpacking failure of
`[(float(x), float(y)) for x, y in scores[:, :2]]` when the adjusted `k`
is `1` and score rows have a single column. -/
def compute_residual_modes (residuals : List (List ℚ)) (s : List ℚ)
    (vh : List (List ℚ)) (k : ℕ := 3) (token_strings : Option (List String) := none)
    (top_n_examples : ℕ := 10) : Option (List ResidualMode × List (ℚ × ℚ)) :=
  if ¬ (residuals.all (fun r => r.length = (residuals.headD []).length)) then none
  else if residuals.length < 2 then none
  else if ((residual_scores residuals vh k).headD []).length < 2 then none
  else
    some ((List.range (residual_kk residuals k)).map
            (residual_mode_build residuals s vh k token_strings top_n_examples),
          (residual_scores residuals vh k).map (fun r => (r.getD 0 0, r.getD 1 0)))

/-- The per-mode loop of `validate_residual_metadata`
(`geometry_viz/residual_metadata.py`): uniqueness of mode indices, the
2D coordinate-count check, then the read of `mode.projection_coords_3d`
— which raises `AttributeError` on every real `ResidualMode` — followed
by the 3D count and joint-presence checks.  Carries the `seen_indices`
set and the `has_any_2d` / `has_any_3d` flags. -/
def validate_modes_loop (sample_count : ℕ) :
    List ResidualMode → List ℕ → Bool → Bool → Except String (Bool × Bool)
  | [], _, has2d, has3d => .ok (has2d, has3d)
  | mode :: rest, seen, has2d, has3d =>
    if mode.mode_index ∈ seen then
      .error "Residual mode indices must be unique within a layer."
    else if mode.projection_coords.length ≠ 0 ∧
        mode.projection_coords.length ≠ sample_count then
      .error "Projection coordinate count must be zero or match residual_sample_count."
    else
      match residualMode_projection_coords_3d mode with
      | none => .error "AttributeError: projection_coords_3d"
      | some coords3d =>
        if coords3d.length ≠ 0 ∧ coords3d.length ≠ sample_count then
          .error "3D projection coordinate count must be zero or match residual_sample_count."
        else if mode.projection_coords.length ≠ 0 ∧ coords3d.length = 0 then
          .error "3D projection coordinates must accompany 2D coordinates when provided."
        else if coords3d.length ≠ 0 ∧ mode.projection_coords.length = 0 then
          .error "2D projection coordinates must accompany 3D coordinates when provided."
        else
          validate_modes_loop sample_count rest (mode.mode_index :: seen)
            (has2d || decide (mode.projection_coords.length ≠ 0))
            (has3d || decide (coords3d.length ≠ 0))

/-- Embeds `validate_residual_metadata` from
`geometry_viz/residual_metadata.py`, the repository's own integrity
checker for residual-mode metadata.  The `sample_count < 0` guard cannot
fire for a natural count; a raised exception becomes `Except.error`. -/
def validate_residual_metadata (residual_modes : List ResidualMode)
    (sample_count : ℕ) : Except String Unit :=
  if residual_modes ≠ [] ∧ sample_count = 0 then
    .error "Residual sample count must be positive when modes are present."
  else
    match validate_modes_loop sample_count residual_modes [] false false with
    | .error e => .error e
    | .ok (has2d, has3d) =>
      if sample_count ≠ 0 ∧ residual_modes ≠ [] then
        if has2d = false then
          .error "At least one residual mode must include 2D projection coordinates when samples are present."
        else if has3d = false then
          .error "At least one residual mode must include 3D projection coordinates when samples are present."
        else .ok ()
      else .ok ()

/-! ## phi2_core/hooks.py and model_manager.forward_with_hooks -/

/-- Identifies a location inside the transformer stack
(`HookPoint` in `phi2_core/hooks.py`). -/
structure HookPoint where
  layer_idx : ℕ
  submodule : String
  head_idx : Option ℕ := none
deriving DecidableEq

/-- A `HookSpec` flattened to the ordered list of hook points that
`HookManager.register` resolves: record points first, then ablation
points, then intervention points (interception functions themselves are
irrelevant to attachment bookkeeping). -/
structure HookSpecPoints where
  record_points : List HookPoint := []
  ablate_points : List HookPoint := []
  intervention_points : List HookPoint := []
deriving DecidableEq

/-- The shape of the model as seen by `HookManager._resolve_module`:
for each transformer block, the names of its interceptable submodules. -/
structure ModelShape where
  layers : List (List String)
deriving DecidableEq

/-- Errors surfaced by hook registration and the forward pass. -/
inductive HookErr where
  | indexError
  | attributeError
  | forwardError
deriving DecidableEq

/-- Embeds `HookManager._resolve_module`: `IndexError` when the layer
index exceeds the block count, `AttributeError`/`ValueError` when the
submodule is not an interceptable unit of that block. -/
def resolve_module (model : ModelShape) (point : HookPoint) : Except HookErr Unit :=
  match model.layers.get? point.layer_idx with
  | none => .error .indexError
  | some mods => if point.submodule ∈ mods then .ok () else .error .attributeError

/-- Embeds `HookManager.register`: resolve and attach a handle for every
point in order, keeping the handles appended so far.  The first component
is the partial handle list held by the manager when the call returns or
raises; the second is the raised error, if any. -/
def hook_register (model : ModelShape) (points : List HookPoint) :
    List HookPoint × Option HookErr :=
  match points with
  | [] => ([], none)
  | p :: rest =>
    match resolve_module model p with
    | .error e => ([], some e)
    | .ok _ =>
      let (attached, err) := hook_register model rest
      (p :: attached, err)

/-- The ordered point list processed by `HookManager.register`. -/
def HookSpecPoints.allPoints (spec : HookSpecPoints) : List HookPoint :=
  spec.record_points ++ spec.ablate_points ++ spec.intervention_points

/-- Embeds `Phi2ModelManager.forward_with_hooks`
(`phi2_core/model_manager.py`): `manager.register()` runs before the
`try`, the forward pass runs inside `try`, `manager.remove()` runs in the
`finally`.  Returns the call's outcome together with the handles still
attached to the model when the call returns (normally or by exception).
`forwardRaises` models whether `model(**inputs)` itself raises. -/
def forward_with_hooks (model : ModelShape) (spec : HookSpecPoints)
    (forwardRaises : Bool) : Except HookErr Unit × List HookPoint :=
  let (attached, err) := hook_register model spec.allPoints
  match err with
  | some e => (.error e, attached)
  | none =>
    if forwardRaises then (.error .forwardError, []) else (.ok (), [])

/-! ## runner.py: direction-intervention run -/

/-- `InterventionSpec` fields used by delta resolution
(`phi2_experiments/spec.py` / `runner.py`): a direct `delta`, an optional
registry `direction` name (Python-falsy values modelled as `[]` and `""`),
and a scale. -/
structure InterventionSpecE where
  name : String
  delta : List ℚ := []
  direction : String := ""
  scale : ℚ := 1
deriving DecidableEq

/-- Errors of `_run_direction_intervention`, classified per the spec's
taxonomy: `configError` for a spec without interventions,
`resourceUnavailable` for a missing tokenizer, `dataDenied` for an
unresolvable direction-registry reference (raised as `ValueError` in
`_resolve_direction_delta`). -/
inductive RunErr where
  | configError
  | resourceUnavailable
  | dataDenied
deriving DecidableEq

/-- Embeds `ExperimentRunner._resolve_direction_delta`: a direct delta
wins; otherwise, with a direction name and an atlas storage present, the
registry is consulted and an absent entry raises; otherwise the delta is
empty.  The atlas storage is an optional association list from direction
name to stored vector. -/
def resolve_direction_delta (atlas_storage : Option (List (String × List ℚ)))
    (definition : InterventionSpecE) : Except RunErr (List ℚ) :=
  if definition.delta ≠ [] then .ok definition.delta
  else
    match atlas_storage with
    | some registry =>
      if definition.direction ≠ "" then
        match registry.find? (fun kv => kv.1 = definition.direction) with
        | none => .error .dataDenied
        | some kv => .ok kv.2
      else .ok []
    | none => .ok []

/-- Embeds `ExperimentRunner._build_intervention_hook_spec`: resolve every
configured intervention's delta in order, failing fast at the first
unresolvable reference. -/
def build_intervention_deltas (atlas_storage : Option (List (String × List ℚ))) :
    List InterventionSpecE → Except RunErr (List (List ℚ))
  | [] => .ok []
  | defn :: rest =>
    match resolve_direction_delta atlas_storage defn with
    | .error e => .error e
    | .ok delta =>
      match build_intervention_deltas atlas_storage rest with
      | .error e => .error e
      | .ok deltas => .ok (delta :: deltas)

/-- Control-flow embedding of `ExperimentRunner._run_direction_intervention`
(`phi2_experiments/runner.py`), faithful to its statement order: the
empty-interventions check, the dataset load and empty-dataset early
return, the tokenizer check, the hook-spec build (delta resolution), and
only then the per-record loop of one baseline plus one intervention
forward pass.  The result pairs the run's outcome with the number of
forward passes executed before the call returned. -/
def run_direction_intervention (atlas_storage : Option (List (String × List ℚ)))
    (interventions : List InterventionSpecE) (num_records : ℕ)
    (tokenizer_available : Bool) : Except RunErr Unit × ℕ :=
  if interventions = [] then (.error .configError, 0)
  else if num_records = 0 then (.ok (), 0)
  else if ¬ tokenizer_available then (.error .resourceUnavailable, 0)
  else
    match build_intervention_deltas atlas_storage interventions with
    | .error e => (.error e, 0)
    | .ok _ => (.ok (), 2 * num_records)

/-! ## Theorems -/

/-- C2: for every pair of baseline and perturbed loss values, the loss
delta equals `(perturbed - baseline) / baseline` when the baseline is
nonzero, and exactly `0` when the baseline is `0` (never undefined). -/
theorem compute_loss_delta_spec (baseline perturbed : ℚ) :
    (baseline ≠ 0 → compute_loss_delta baseline perturbed =
      (perturbed - baseline) / baseline) ∧
    (baseline = 0 → compute_loss_delta baseline perturbed = 0) := by
  constructor
  · intro h
    simp [compute_loss_delta, h]
  · intro h
    simp [compute_loss_delta, h]

/-- Witness for `compute_loss_delta_spec` at concrete losses. -/
theorem compute_loss_delta_spec_witness :
    compute_loss_delta 2 3 = (3 - 2) / 2 ∧ compute_loss_delta 0 7 = 0 :=
  ⟨(compute_loss_delta_spec 2 3).1 (by norm_num),
   (compute_loss_delta_spec 0 7).2 rfl⟩

/-- C6: for every `N ≥ 1`, the probe split returns equal train-end and
test-start indices; for `N = 1` both are `1` (train and test degrade to
the single sample); for `N > 1` the index is
`max(1, floor(0.8 N))` clipped to `N - 1`, leaving both the train set and
the held-out set non-empty. -/
theorem probe_split_indices_spec (n : ℕ) (hn : 1 ≤ n) :
    (probe_split_indices n).1 = (probe_split_indices n).2 ∧
    (n = 1 → probe_split_indices n = (1, 1)) ∧
    (1 < n →
      (probe_split_indices n).1 = min (max 1 (4 * n / 5)) (n - 1) ∧
      1 ≤ (probe_split_indices n).1 ∧ (probe_split_indices n).1 < n) := by
  have hdiv : 4 * n / 5 < n := Nat.div_lt_of_lt_mul (by omega)
  refine ⟨?_, ?_, ?_⟩
  · unfold probe_split_indices
    split <;> simp
  · rintro rfl
    rfl
  · intro h2
    have hlt : max 1 (4 * n / 5) < n := by omega
    unfold probe_split_indices
    simp only [if_neg (by omega : ¬ n ≤ 1), if_neg (by omega : ¬ max 1 (4 * n / 5) ≥ n)]
    omega

/-- Witness for `probe_split_indices_spec` at `N = 1` and `N = 7`. -/
theorem probe_split_indices_spec_witness :
    (probe_split_indices 1 = (1, 1)) ∧
    ((probe_split_indices 7).1 = min (max 1 (4 * 7 / 5)) (7 - 1) ∧
      1 ≤ (probe_split_indices 7).1 ∧ (probe_split_indices 7).1 < 7) :=
  ⟨(probe_split_indices_spec 1 (by decide)).2.1 rfl,
   (probe_split_indices_spec 7 (by decide)).2.2 (by decide)⟩

/-- C7: the intervention interceptor preserves the trailing dimension and
adds exactly `scale * delta'` at every position, where `delta'` is the
delta vector zero-padded or truncated to the trailing dimension — so each
entry becomes `tensor[i] + scale * (delta[i] if i < len(delta) else 0)`. -/
theorem intervention_hook_spec (delta : List ℚ) (scale : ℚ) (tensor : List ℚ) :
    (intervention_hook delta scale tensor).length = tensor.length ∧
    (∀ i, i < tensor.length →
      (intervention_hook delta scale tensor).getD i 0 =
        tensor.getD i 0 + scale * delta.getD i 0) := by
  have hlen : (adjustDelta delta tensor.length).length = tensor.length := by
    unfold adjustDelta
    split
    · simp; omega
    · split
      · simp; omega
      · omega
  have hget : ∀ i, i < tensor.length →
      (adjustDelta delta tensor.length).getD i 0 = delta.getD i 0 := by
    intro i hi
    unfold adjustDelta
    split
    · rcases Nat.lt_or_ge i delta.length with h | h
      · rw [List.getD_append _ _ _ _ h]
      · rw [List.getD_eq_getElem?_getD, List.getElem?_append_right (by simpa using h),
          List.getElem?_replicate, if_pos (by omega)]
        simp [List.getD_eq_getElem?_getD, List.getElem?_eq_none h]
    · split
      · rw [List.getD_eq_getElem?_getD, List.getElem?_take, List.getD_eq_getElem?_getD]
        simp [hi]
      · rfl
  constructor
  · simp [intervention_hook, hlen]
  · intro i hi
    have hiz : i < (List.zipWith (fun t d => t + scale * d) tensor
        (adjustDelta delta tensor.length)).length := by
      simp [List.length_zipWith, hlen]; omega
    have hia : i < (adjustDelta delta tensor.length).length := by omega
    have h1 := hget i hi
    rw [List.getD_eq_getElem?_getD, List.getElem?_eq_getElem hia, Option.getD_some] at h1
    rw [intervention_hook, List.getD_eq_getElem?_getD, List.getElem?_eq_getElem hiz,
      Option.getD_some, List.getElem_zipWith, h1,
      List.getD_eq_getElem?_getD tensor, List.getElem?_eq_getElem hi, Option.getD_some]

/-- Witness for `intervention_hook_spec`: a length-2 delta against a
length-3 tensor (zero-padding) evaluated at position 2. -/
theorem intervention_hook_spec_witness :
    (intervention_hook [1, 2] 10 [5, 6, 7]).getD 2 0 =
      ([5, 6, 7] : List ℚ).getD 2 0 + 10 * ([1, 2] : List ℚ).getD 2 0 :=
  (intervention_hook_spec [1, 2] 10 [5, 6, 7]).2 2 (by decide)

/-- C10: for equal-length flattened predictions and labels and an optional
same-length mask, the accuracy computation always succeeds; it returns
exactly `0` when the mask selects no positions (never a division by
zero), and otherwise the number of mask-true positions where prediction
equals label divided by the number of mask-true positions — a value in
`[0, 1]`. -/
theorem compute_accuracy_spec (predictions labels : List Int) (mask : Option (List Bool))
    (h1 : predictions.length = labels.length)
    (h2 : (validMask labels.length mask).length = labels.length) :
    ∃ q, compute_accuracy_from_predictions predictions labels mask = .ok q ∧
      0 ≤ q ∧ q ≤ 1 ∧
      ((validMask labels.length mask).countP (fun b => b = true) = 0 → q = 0) ∧
      (0 < (validMask labels.length mask).countP (fun b => b = true) →
        q = (((predictions.zip labels).zip (validMask labels.length mask)).countP
              (fun x => x.1.1 = x.1.2 ∧ x.2 = true) : ℚ) /
            ((validMask labels.length mask).countP (fun b => b = true) : ℚ)) := by
  set vm := validMask labels.length mask with hvm
  by_cases hall : vm.all (fun b => !b) = true
  · have hcount : vm.countP (fun b => b = true) = 0 := by
      rw [List.countP_eq_zero]
      intro b hb
      have := List.all_eq_true.mp hall b hb
      simp at this
      simp [this]
    refine ⟨0, ?_, le_refl 0, zero_le_one, fun _ => rfl, fun hpos => absurd hcount (by omega)⟩
    unfold compute_accuracy_from_predictions
    rw [if_neg (by omega), ← hvm, if_neg (by omega), if_pos hall]
  · set mc := ((predictions.zip labels).zip vm).countP
      (fun x => x.1.1 = x.1.2 ∧ x.2 = true) with hmc
    set tc := vm.countP (fun b => b = true) with htc
    have hzip_len : (predictions.zip labels).length = labels.length := by
      simp [List.length_zip, h1]
    have hmap : ((predictions.zip labels).zip vm).map Prod.snd = vm :=
      List.map_snd_zip _ _ (by omega)
    have htc_zip : tc = ((predictions.zip labels).zip vm).countP (fun x => x.2 = true) := by
      rw [htc]
      conv_lhs => rw [← hmap]
      rw [List.countP_map]
      simp [Function.comp_def]
    have hmle : mc ≤ tc := by
      rw [hmc, htc_zip]
      apply List.countP_mono_left
      intro a _ ha
      simp only [decide_eq_true_eq] at ha ⊢
      exact ha.2
    have htpos : 0 < tc := by
      rw [htc, List.countP_pos_iff]
      simp only [List.all_eq_true] at hall
      push_neg at hall
      obtain ⟨b, hb, hb'⟩ := hall
      exact ⟨b, hb, by simpa using hb'⟩
    refine ⟨(mc : ℚ) / (tc : ℚ), ?_, ?_, ?_, fun h0 => absurd h0 (by omega), fun _ => rfl⟩
    · unfold compute_accuracy_from_predictions
      rw [if_neg (by omega), ← hvm, if_neg (by omega), if_neg hall]
    · positivity
    · rw [div_le_one (by exact_mod_cast htpos)]
      exact_mod_cast hmle

/-- Witness for `compute_accuracy_spec`: two predictions, one correct,
full mask. -/
theorem compute_accuracy_spec_witness :
    ∃ q, compute_accuracy_from_predictions [1, 2] [1, 3] (some [true, true]) = .ok q ∧
      0 ≤ q ∧ q ≤ 1 ∧
      ((validMask 2 (some [true, true])).countP (fun b => b = true) = 0 → q = 0) ∧
      (0 < (validMask 2 (some [true, true])).countP (fun b => b = true) →
        q = ((([(1 : Int), 2].zip [(1 : Int), 3]).zip (validMask 2 (some [true, true]))).countP
              (fun x => x.1.1 = x.1.2 ∧ x.2 = true) : ℚ) /
            ((validMask 2 (some [true, true])).countP (fun b => b = true) : ℚ)) :=
  compute_accuracy_spec [1, 2] [1, 3] (some [true, true]) (by decide) (by decide)

/-- C3: with the default metric, the head ranking is pairwise ordered by
score descending with ties broken by lexicographically ascending head
key, and it is a deterministic function of the aggregated-importance
mapping: any reordering of the input association list yields the
identical ranking. -/
theorem rank_heads_by_importance_spec
    (agg agg' : List (String × List (String × ℚ))) (hperm : agg.Perm agg') :
    (rank_heads_by_importance agg "mean" none).Pairwise rankLE ∧
    rank_heads_by_importance agg "mean" none =
      rank_heads_by_importance agg' "mean" none := by
  have hsorted : ∀ l : List (String × List (String × ℚ)),
      (rank_heads_by_importance l "mean" none).Pairwise rankLE := by
    intro l
    exact List.sorted_insertionSort rankLE
      (l.map (fun hm => RankedHead.mk hm.1 (dictGet hm.2 "mean" 0)))
  refine ⟨hsorted agg, ?_⟩
  refine List.eq_of_perm_of_sorted ?_ (hsorted agg) (hsorted agg')
  have p1 : (rank_heads_by_importance agg "mean" none).Perm
      (agg.map (fun hm => RankedHead.mk hm.1 (dictGet hm.2 "mean" 0))) :=
    List.perm_insertionSort rankLE _
  have p3 : (agg'.map (fun hm => RankedHead.mk hm.1 (dictGet hm.2 "mean" 0))).Perm
      (rank_heads_by_importance agg' "mean" none) :=
    (List.perm_insertionSort rankLE _).symm
  exact p1.trans ((hperm.map _).trans p3)

/-- Witness for `rank_heads_by_importance_spec`: two heads with equal
mean scores presented in both orders. -/
theorem rank_heads_by_importance_spec_witness :
    (rank_heads_by_importance
        [("layer0.head1", [("mean", (1 : ℚ))]), ("layer0.head0", [("mean", (1 : ℚ))])]
        "mean" none).Pairwise rankLE ∧
    rank_heads_by_importance
        [("layer0.head1", [("mean", (1 : ℚ))]), ("layer0.head0", [("mean", (1 : ℚ))])]
        "mean" none =
      rank_heads_by_importance
        [("layer0.head0", [("mean", (1 : ℚ))]), ("layer0.head1", [("mean", (1 : ℚ))])]
        "mean" none :=
  rank_heads_by_importance_spec _ _ (by decide)

/-- C1: the scoped-detachment guarantee of `forward_with_hooks` fails on
the hook-registration error path.  With a one-block model and a
`HookSpec` whose second record point addresses layer 1,
`HookManager.register` attaches the layer-0 interceptor, then raises
`IndexError`; `manager.remove()` sits in the `finally` of the forward
pass only, so the call returns with the layer-0 interceptor still
attached — while a forward pass that itself raises does detach
everything.  This contradicts the spec's every-exit-path detachment
guarantee. -/
theorem forward_with_hooks_registration_leak :
    (forward_with_hooks ⟨[["mlp"]]⟩
        { record_points := [⟨0, "mlp", none⟩, ⟨1, "mlp", none⟩] } false).2 =
      [⟨0, "mlp", none⟩] ∧
    ([(⟨0, "mlp", none⟩ : HookPoint)] ≠ []) ∧
    (forward_with_hooks ⟨[["mlp"]]⟩
        { record_points := [⟨0, "mlp", none⟩] } true).2 = [] := by
  refine ⟨rfl, by simp, rfl⟩

/-- Any error raised by `_resolve_direction_delta` is the unresolved
direction-registry reference. -/
theorem resolve_direction_delta_error_eq (atlas : Option (List (String × List ℚ)))
    (defn : InterventionSpecE) (e : RunErr)
    (h : resolve_direction_delta atlas defn = .error e) : e = .dataDenied := by
  unfold resolve_direction_delta at h
  split at h
  · exact absurd h (by simp)
  · split at h
    · split at h
      · split at h
        · cases h; rfl
        · exact absurd h (by simp)
      · exact absurd h (by simp)
    · exact absurd h (by simp)

/-- If any configured intervention fails to resolve, the hook-spec build
fails with the unresolved-reference error. -/
theorem build_intervention_deltas_error (atlas : Option (List (String × List ℚ)))
    (l : List InterventionSpecE) (iv : InterventionSpecE) (hmem : iv ∈ l)
    (hfail : resolve_direction_delta atlas iv = .error .dataDenied) :
    build_intervention_deltas atlas l = .error .dataDenied := by
  induction l with
  | nil => exact absurd hmem (List.not_mem_nil iv)
  | cons hd tl ih =>
    rcases List.mem_cons.mp hmem with rfl | hmem'
    · simp [build_intervention_deltas, hfail]
    · cases hres : resolve_direction_delta atlas hd with
      | error e =>
        have he := resolve_direction_delta_error_eq atlas hd e hres
        subst he
        simp [build_intervention_deltas, hres]
      | ok d =>
        simp [build_intervention_deltas, hres, ih hmem']

/-- C5 counterexample: a direction-intervention run whose single
intervention supplies no delta and references a direction absent from the
(present) registry, over an empty dataset.  The reference is indeed
unresolvable, yet the run returns the empty-but-well-typed summary
without failing: the early empty-dataset return precedes delta
resolution, so the claim's unconditional "the run fails" is false. -/
theorem run_direction_intervention_counterexample :
    resolve_direction_delta (some [])
      { name := "iv", delta := [], direction := "missing", scale := 1 } =
        .error .dataDenied ∧
    run_direction_intervention (some [])
      [{ name := "iv", delta := [], direction := "missing", scale := 1 }] 0 true =
        (.ok (), 0) :=
  ⟨rfl, rfl⟩

/-- C5 amended: in a direction-intervention run with a present direction
registry, an available tokenizer, and at least one dataset record, if
some configured intervention supplies no direct delta and references a
direction name the registry cannot resolve, then the run fails with the
`DataDenied`-class error and zero forward passes are executed. -/
theorem run_direction_intervention_spec (registry : List (String × List ℚ))
    (interventions : List InterventionSpecE) (num_records : ℕ)
    (iv : InterventionSpecE) (hmem : iv ∈ interventions)
    (hdelta : iv.delta = []) (hdir : iv.direction ≠ "")
    (hlook : registry.find? (fun kv => kv.1 = iv.direction) = none)
    (hrec : 1 ≤ num_records) :
    run_direction_intervention (some registry) interventions num_records true =
      (.error .dataDenied, 0) := by
  have hne : interventions ≠ [] := by
    intro h
    rw [h] at hmem
    exact List.not_mem_nil iv hmem
  have hfail : resolve_direction_delta (some registry) iv = .error .dataDenied := by
    unfold resolve_direction_delta
    rw [if_neg (by simp [hdelta])]
    simp only [if_pos hdir, hlook]
  have hbuild := build_intervention_deltas_error (some registry) interventions iv hmem hfail
  unfold run_direction_intervention
  rw [if_neg hne, if_neg (by omega), if_neg (by simp), hbuild]

/-- Witness for `run_direction_intervention_spec`: one record, empty
registry, one unresolvable intervention. -/
theorem run_direction_intervention_spec_witness :
    run_direction_intervention (some [])
      [{ name := "iv", delta := [], direction := "missing", scale := 1 }] 1 true =
        (.error .dataDenied, 0) :=
  run_direction_intervention_spec []
    [{ name := "iv", delta := [], direction := "missing", scale := 1 }] 1
    { name := "iv", delta := [], direction := "missing", scale := 1 }
    (by simp) rfl (by simp) rfl (by omega)

/-! ### Ablation interceptor lemmas -/

/-- Mapping a function over an enumerated list preserves length. -/
theorem length_enumMap (f : ℕ → ℚ → ℚ) (t : List ℚ) :
    (t.enum.map (fun p => f p.1 p.2)).length = t.length := by
  simp [List.enum_length]

/-- Defaulted lookup commutes with mapping over an enumerated list. -/
theorem getD_enumMap (f : ℕ → ℚ → ℚ) (t : List ℚ) (p : ℕ) (hp : p < t.length) :
    (t.enum.map (fun q => f q.1 q.2)).getD p 0 = f p (t.getD p 0) := by
  rw [List.getD_eq_getElem?_getD, List.getElem?_map, List.getElem?_enum,
    List.getElem?_eq_getElem hp]
  rw [List.getD_eq_getElem?_getD, List.getElem?_eq_getElem hp]
  rfl

theorem zero_attention_head_none (idx ndim : ℕ) (t : List ℚ) :
    zero_attention_head none idx ndim t = some t := rfl

theorem zero_attention_head_out_of_range (nh idx ndim : ℕ) (t : List ℚ)
    (h : nh ≤ idx) : zero_attention_head (some nh) idx ndim t = some t := by
  simp [zero_attention_head, if_pos h]

theorem zero_attention_head_low_ndim (nh idx ndim : ℕ) (t : List ℚ)
    (h : ndim < 3) : zero_attention_head (some nh) idx ndim t = some t := by
  unfold zero_attention_head
  by_cases hi : nh ≤ idx <;> simp [hi, h]

theorem zero_attention_head_in_range (nh idx ndim : ℕ) (t : List ℚ)
    (h3 : 3 ≤ ndim) (hdvd : nh ∣ t.length) (hidx : idx < nh) :
    zero_attention_head (some nh) idx ndim t =
      some (t.enum.map (fun p => if p.1 / (t.length / nh) = idx then 0 else p.2)) := by
  show (if nh ≤ idx then some t
    else if ndim < 3 then some t
    else if t.length = nh * (t.length / nh) then
      some (t.enum.map (fun p => if p.1 / (t.length / nh) = idx then 0 else p.2))
    else none) = _
  rw [if_neg (by omega), if_neg (by omega), if_pos (Nat.mul_div_cancel' hdvd).symm]

/-- Positions of a tensor whose length is a positive multiple of the head
count always address an in-range head slice. -/
theorem pos_div_headDim_lt (nh p len : ℕ) (hnh : 0 < nh) (hdvd : nh ∣ len)
    (hp : p < len) : p / (len / nh) < nh := by
  have hlen : 0 < len := by omega
  have hhd : 0 < len / nh := Nat.div_pos (Nat.le_of_dvd hlen hdvd) hnh
  rw [Nat.div_lt_iff_lt_mul hhd]
  calc p < len := hp
    _ = nh * (len / nh) := (Nat.mul_div_cancel' hdvd).symm

/-- Pointwise description of the attention-head ablation fold: under the
spec's presuppositions every position in a requested slice is zeroed and
every other position is untouched. -/
theorem apply_head_ablation_fold (nh ndim : ℕ) (h3 : 3 ≤ ndim) (hnh : 0 < nh)
    (indices : List ℕ) :
    ∀ (t : List ℚ), nh ∣ t.length →
      ∃ r, apply_head_ablation (some nh) indices ndim t = some r ∧
        r.length = t.length ∧
        (∀ p, p < t.length → r.getD p 0 =
          if p / (t.length / nh) ∈ indices then 0 else t.getD p 0) := by
  induction indices with
  | nil =>
    intro t _
    exact ⟨t, rfl, rfl, fun p _ => by simp⟩
  | cons idx rest ih =>
    intro t hdvd
    by_cases hidx : idx < nh
    · set f : ℕ → ℚ → ℚ := fun i x => if i / (t.length / nh) = idx then 0 else x with hf
      set t' := t.enum.map (fun p => f p.1 p.2) with ht'
      have hlen' : t'.length = t.length := length_enumMap f t
      obtain ⟨r, hr, hrlen, hrget⟩ := ih t' (by rw [hlen']; exact hdvd)
      refine ⟨r, ?_, by omega, ?_⟩
      · have hstep : apply_head_ablation (some nh) (idx :: rest) ndim t =
            apply_head_ablation (some nh) rest ndim t' := by
          unfold apply_head_ablation
          rw [List.foldl_cons]
          congr 1
          rw [Option.some_bind, zero_attention_head_in_range nh idx ndim t h3 hdvd hidx]
        rw [hstep, hr]
      · intro p hp
        have hp' : p < t'.length := by omega
        have h1 := hrget p hp'
        have h2 : t'.getD p 0 = f p (t.getD p 0) := getD_enumMap f t p hp
        rw [h1, hlen', h2, hf]
        simp only [List.mem_cons]
        by_cases hin : p / (t.length / nh) ∈ rest
        · simp [hin]
        · by_cases heq : p / (t.length / nh) = idx <;> simp [hin, heq]
    · obtain ⟨r, hr, hrlen, hrget⟩ := ih t hdvd
      refine ⟨r, ?_, hrlen, ?_⟩
      · have hstep : apply_head_ablation (some nh) (idx :: rest) ndim t =
            apply_head_ablation (some nh) rest ndim t := by
          unfold apply_head_ablation
          rw [List.foldl_cons]
          congr 1
          rw [Option.some_bind, zero_attention_head_out_of_range nh idx ndim t (by omega)]
        rw [hstep, hr]
      · intro p hp
        have hne : p / (t.length / nh) ≠ idx := by
          have := pos_div_headDim_lt nh p t.length hnh hdvd hp
          omega
        rw [hrget p hp]
        simp only [List.mem_cons]
        by_cases hin : p / (t.length / nh) ∈ rest <;> simp [hin, hne]

theorem getD_eq_getElem_of_lt (l : List ℚ) (p : ℕ) (h : p < l.length) :
    l.getD p 0 = l[p] := by
  rw [List.getD_eq_getElem?_getD, List.getElem?_eq_getElem h]
  rfl

/-- C8 counterexample: a 2-dimensional intercepted tensor with two
reported heads and head 0 requested.  The claim demands the first of the
two equal slices be zeroed, but `zero_attention_head` returns early for
tensors of fewer than 3 dimensions, leaving the tensor unchanged. -/
theorem apply_head_ablation_counterexample :
    apply_head_ablation (some 2) [0] 2 [(1 : ℚ), 1] = some [1, 1] ∧
    spec_zero_slices 2 [0] [(1 : ℚ), 1] = [0, 1] ∧
    ([(1 : ℚ), 1] ≠ ([0, 1] : List ℚ)) := by
  refine ⟨rfl, rfl, by simp⟩

/-- C8 amended: for intercepted tensors of at least 3 dimensions whose
trailing dimension splits into `numHeads` equal slices, the ablation
interceptor zeroes exactly the slices at the requested in-range indices
and leaves all other entries unchanged (each out-of-range index is
individually a no-op); when every requested index is out of range, when
the layer reports no head count, or when the tensor has fewer than 3
dimensions, the tensor passes through entirely unchanged. -/
theorem apply_head_ablation_spec (nh : ℕ) (indices : List ℕ) (ndim : ℕ)
    (t : List ℚ) (hnh : 0 < nh) :
    (apply_head_ablation none indices ndim t = some t) ∧
    (ndim < 3 → apply_head_ablation (some nh) indices ndim t = some t) ∧
    ((∀ i ∈ indices, nh ≤ i) → apply_head_ablation (some nh) indices ndim t = some t) ∧
    (3 ≤ ndim → nh ∣ t.length →
      apply_head_ablation (some nh) indices ndim t =
        some (spec_zero_slices nh indices t)) := by
  refine ⟨?_, ?_, ?_, ?_⟩
  · induction indices with
    | nil => rfl
    | cons idx rest ih =>
      unfold apply_head_ablation at ih ⊢
      rw [List.foldl_cons, Option.some_bind, zero_attention_head_none]
      exact ih
  · intro hnd
    induction indices with
    | nil => rfl
    | cons idx rest ih =>
      unfold apply_head_ablation at ih ⊢
      rw [List.foldl_cons, Option.some_bind, zero_attention_head_low_ndim nh idx ndim t hnd]
      exact ih
  · intro hout
    induction indices with
    | nil => rfl
    | cons idx rest ih =>
      unfold apply_head_ablation at ih ⊢
      rw [List.foldl_cons, Option.some_bind,
        zero_attention_head_out_of_range nh idx ndim t (hout idx (by simp))]
      exact ih fun i hi => hout i (by simp [hi])
  · intro h3 hdvd
    obtain ⟨r, hr, hrlen, hrget⟩ := apply_head_ablation_fold nh ndim h3 hnh indices t hdvd
    rw [hr]
    congr 1
    have hslen : (spec_zero_slices nh indices t).length = t.length :=
      length_enumMap (fun i x => if i / (t.length / nh) ∈ indices then 0 else x) t
    apply List.ext_getElem (by omega)
    intro p hp1 hp2
    have hpt : p < t.length := by omega
    have h1 := hrget p hpt
    have h2 : (spec_zero_slices nh indices t).getD p 0 =
        if p / (t.length / nh) ∈ indices then 0 else t.getD p 0 :=
      getD_enumMap (fun i x => if i / (t.length / nh) ∈ indices then 0 else x) t p hpt
    rw [getD_eq_getElem_of_lt r p hp1] at h1
    rw [getD_eq_getElem_of_lt _ p hp2] at h2
    rw [h1, ← h2]

/-- Witness for `apply_head_ablation_spec`: a 3-dimensional tensor with
trailing dimension 4 split across 2 heads, zeroing head 0 with an
out-of-range index 5 also requested. -/
theorem apply_head_ablation_spec_witness :
    (apply_head_ablation none [0, 5] 3 [(1 : ℚ), 2, 3, 4] = some [1, 2, 3, 4]) ∧
    (apply_head_ablation (some 2) [0, 5] 2 [(1 : ℚ), 2, 3, 4] = some [1, 2, 3, 4]) ∧
    (apply_head_ablation (some 2) [5] 3 [(1 : ℚ), 2, 3, 4] = some [1, 2, 3, 4]) ∧
    (apply_head_ablation (some 2) [0, 5] 3 [(1 : ℚ), 2, 3, 4] =
      some (spec_zero_slices 2 [0, 5] [(1 : ℚ), 2, 3, 4])) := by
  obtain ⟨h1, h2, _, h4⟩ := apply_head_ablation_spec 2 [0, 5] 3 [(1 : ℚ), 2, 3, 4] (by omega)
  obtain ⟨_, h2', h3', _⟩ := apply_head_ablation_spec 2 [0, 5] 2 [(1 : ℚ), 2, 3, 4] (by omega)
  obtain ⟨_, _, h3, _⟩ := apply_head_ablation_spec 2 [5] 3 [(1 : ℚ), 2, 3, 4] (by omega)
  exact ⟨h1, h2' (by omega), h3 (by decide), h4 (by omega) (by decide)⟩

/-! ### PCA lemmas -/

/-- Summing a list divided elementwise by a constant. -/
theorem sum_map_div (l : List ℚ) (c : ℚ) :
    (l.map (fun x => x / c)).sum = l.sum / c := by
  induction l with
  | nil => simp
  | cons h t ih => simp [ih, add_div]

/-- C4 counterexample: the all-zero 2×2 input matrix with 3 requested
components.  `(idMat 2, [0, 0], idMat 2)` is a valid reduced SVD of its
(identical) column-centered form, the input matrix has rank 0, yet
`compute_pca` keeps `min(3, len(vh)) = 2` components — not
`min(requestedComponents, rank(inputMatrix)) = 0`: the code truncates by
`min(n, d)` (the number of rows of the reduced `Vh`), not by matrix
rank. -/
theorem compute_pca_counterexample :
    isSVD (centerColumns [[(0 : ℚ), 0], [0, 0]]) (idMat 2) [0, 0] (idMat 2) ∧
    matRank [[(0 : ℚ), 0], [0, 0]] = 0 ∧
    (∃ res, compute_pca [[(0 : ℚ), 0], [0, 0]] [0, 0] (idMat 2) 3 = .ok res ∧
      res.components.length = 2) ∧
    min 3 (matRank [[(0 : ℚ), 0], [0, 0]]) = 0 := by
  refine ⟨⟨?_, ?_, ?_⟩, ?_, ⟨_, rfl, ?_⟩, ?_⟩
  · norm_num [matMul, transposeMat, idMat, diagMat, dot, centerColumns, colMeans,
      List.range_succ]
  · norm_num [matMul, transposeMat, idMat, diagMat, dot, List.range_succ]
  · norm_num [matMul, transposeMat, idMat, diagMat, dot, List.range_succ]
  · norm_num [matRank, matRankAux]
  · norm_num [compute_pca_core, idMat, List.range_succ]
  · norm_num [matRank, matRankAux]

/-- C4 amended: for every rectangular input with at least two rows and
any reduced SVD `(s, vh)` of its centered form obeying the reduced-SVD
shape contract (`len(vh) = min(n, d)`), `compute_pca` succeeds, the
explained variances are `s² / (N - 1)` truncated to the kept components,
the explained-variance ratios sum to at most 1, and the number of kept
components is `min(requestedComponents, min(n, d))` — the rank bound of
the original claim holds only through `rank ≤ min(n, d)`, with equality
just for full-rank input. -/
theorem compute_pca_spec (matrix : List (List ℚ)) (s : List ℚ) (vh : List (List ℚ))
    (k : ℕ)
    (hrect : matrix.all (fun r => r.length = (matrix.headD []).length))
    (hn : 2 ≤ matrix.length)
    (hvh : vh.length = min matrix.length (matrix.headD []).length) :
    ∃ res, compute_pca matrix s vh k = .ok res ∧
      res.components.length = min k (min matrix.length (matrix.headD []).length) ∧
      res.explained_variance =
        (s.map (fun x => x ^ 2 / ((matrix.length - 1 : ℕ) : ℚ))).take
          (min k (min matrix.length (matrix.headD []).length)) ∧
      res.explained_variance_ratio.sum ≤ 1 := by
  have hmax : (max (matrix.length - 1) 1 : ℕ) = matrix.length - 1 := by omega
  refine ⟨compute_pca_core matrix.length s vh k (centerColumns matrix), ?_, ?_, ?_, ?_⟩
  · unfold compute_pca
    rw [if_neg (not_not_intro hrect), if_neg (by omega)]
  · show (vh.take (min k vh.length)).length = _
    simp [hvh]
  · show (s.map fun x => x ^ 2 / ((max (matrix.length - 1) 1 : ℕ) : ℚ)).take
        (min k vh.length) = _
    rw [hmax, hvh]
  · set ev := s.map (fun x => x ^ 2 / ((max (matrix.length - 1) 1 : ℕ) : ℚ)) with hev
    have hnn : ∀ x ∈ ev, 0 ≤ x := by
      intro x hx
      rw [hev] at hx
      obtain ⟨y, _, rfl⟩ := List.mem_map.mp hx
      positivity
    have htake_le : ∀ m : ℕ, (ev.take m).sum ≤ ev.sum :=
      fun m => List.Sublist.sum_le_sum (List.take_sublist m ev) hnn
    set tv := if ev.sum = 0 then 1 else ev.sum with htv
    have htvpos : 0 < tv := by
      rw [htv]
      split
      · norm_num
      · rcases lt_or_eq_of_le (List.sum_nonneg hnn) with h | h
        · exact h
        · simp_all
    show ((ev.map (fun v => v / tv)).take (min k vh.length)).sum ≤ 1
    rw [← List.map_take, sum_map_div, div_le_one htvpos]
    refine le_trans (htake_le _) ?_
    rw [htv]
    split
    · simp_all
    · exact le_refl _

/-- Witness for `compute_pca_spec`: the 2×2 identity input, whose
centered form has the valid reduced SVD used here shapewise. -/
theorem compute_pca_spec_witness :
    ∃ res, compute_pca [[(1 : ℚ), 0], [0, 1]] [1, 1] (idMat 2) 1 = .ok res ∧
      res.components.length = min 1 (min 2 ([[(1 : ℚ), 0], [0, 1]].headD []).length) ∧
      res.explained_variance =
        (([1, 1] : List ℚ).map (fun x => x ^ 2 / ((2 - 1 : ℕ) : ℚ))).take
          (min 1 (min 2 ([[(1 : ℚ), 0], [0, 1]].headD []).length)) ∧
      res.explained_variance_ratio.sum ≤ 1 := by
  have h := compute_pca_spec [[(1 : ℚ), 0], [0, 1]] [1, 1] (idMat 2) 1
    (by decide) (by decide) (by decide)
  exact h

/-- Shape of every successful `compute_residual_modes` result: the mode
list is `residual_mode_build` mapped over `range kk`. -/
theorem compute_residual_modes_shape (residuals : List (List ℚ)) (s : List ℚ)
    (vh : List (List ℚ)) (k : ℕ) (tokens : Option (List String)) (topn : ℕ)
    (modes : List ResidualMode) (proj : List (ℚ × ℚ))
    (h : compute_residual_modes residuals s vh k tokens topn = some (modes, proj)) :
    modes = (List.range (residual_kk residuals k)).map
      (residual_mode_build residuals s vh k tokens topn) := by
  unfold compute_residual_modes at h
  split at h
  · exact absurd h (by simp)
  · split at h
    · exact absurd h (by simp)
    · split at h
      · exact absurd h (by simp)
      · rw [Option.some_inj] at h
        exact (congrArg Prod.fst h).symm

/-- C9: the joint-presence invariant for 2D/3D projections fails in the
code.  Evaluating `compute_residual_modes` on a 2×2 residual matrix:
the returned modes have distinct indices and 2D projections of full
sample length, but — because `geometry_viz/schema.py` declares no
`projection_coords_3d` field and pydantic silently drops the constructor
keyword — the 3D attribute lookup fails on every mode, and the
repository's own `validate_residual_metadata` (which asserts exactly the
claimed invariant) raises `AttributeError` at its 3D read instead of
accepting the modes. -/
theorem compute_residual_modes_missing_3d :
    ∃ mp, compute_residual_modes [[(1 : ℚ), 0], [0, 1]] [1, 1] (idMat 2) 2 none 10 =
        some mp ∧
      mp.1 ≠ [] ∧
      (mp.1.map ResidualMode.mode_index).Nodup ∧
      (∀ m ∈ mp.1, m.projection_coords.length = 2 ∧
        residualMode_projection_coords_3d m = none) ∧
      validate_residual_metadata mp.1 2 =
        .error "AttributeError: projection_coords_3d" := by
  cases hmp : compute_residual_modes [[(1 : ℚ), 0], [0, 1]] [1, 1] (idMat 2) 2 none 10 with
  | none => exact absurd hmp (by decide)
  | some mp =>
    have hshape := compute_residual_modes_shape _ _ _ _ _ _ mp.1 mp.2 hmp
    refine ⟨mp, rfl, ?_, ?_, ?_, ?_⟩
    · rw [hshape]; decide
    · rw [hshape, List.map_map]
      have hcomp : (ResidualMode.mode_index ∘
          residual_mode_build [[(1 : ℚ), 0], [0, 1]] [1, 1] (idMat 2) 2 none 10) =
            fun idx => idx := rfl
      rw [hcomp, List.map_id_fun']
      exact List.nodup_range _
    · intro m hm
      rw [hshape] at hm
      obtain ⟨idx, _, rfl⟩ := List.mem_map.mp hm
      refine ⟨?_, rfl⟩
      simp [residual_mode_build, residualMode_init, residual_scores, centerColumns]
    · rw [hshape]
      rfl

end PhiLab
